import Mathlib

/-! Verification development for the typegraphql-prisma generator.

The definitions below are a shallow embedding of the schema-transformation
and code-emission pipeline of the repository (src/generator/dmmf/transform.ts,
src/generator/resolvers/relations.ts, the DmmfDocument constructor and the
BlockGeneratorFactory orchestrator).  Pure TypeScript functions become Lean
functions, the module-level memoization cache becomes explicit state
threading, and code that can throw returns Except.  Helpers that live in
files not provided with the sources (pascalCase, parsed documentation
attributes, input-type name prettifiers) are modelled from the
specification and marked as such in their doc comments. -/

namespace TGP

/-! ### String helpers with JavaScript semantics -/

/-- JS String.prototype.includes: substring containment. -/
def strIncludes (s sub : String) : Bool :=
  (List.range (s.toList.length + 1)).any fun i =>
    sub.toList.isPrefixOf (s.toList.drop i)

/-- JS String.prototype.startsWith. -/
def strStartsWith (s p : String) : Bool :=
  p.toList.isPrefixOf s.toList

/-- JS String.prototype.endsWith. -/
def strEndsWith (s p : String) : Bool :=
  p.toList.isSuffixOf s.toList

/-- JS String.prototype.slice(n) for a nonnegative start index. -/
def strDrop (s : String) (n : Nat) : String :=
  String.mk (s.toList.drop n)

/-- Drop the last n characters, as in JS slice(0, -n). -/
def strDropRight (s : String) (n : Nat) : String :=
  String.mk (s.toList.take (s.toList.length - n))

/-- JS String.prototype.toLocaleLowerCase, modelled for ASCII identifiers. -/
def strLower (s : String) : String :=
  String.mk (s.toList.map Char.toLower)

/-- JS String.prototype.replace with a literal pattern and empty replacement:
removes the first occurrence of the pattern. -/
def replaceFirstWithEmpty (s pat : String) : String :=
  match (List.range (s.toList.length + 1)).find?
      (fun i => pat.toList.isPrefixOf (s.toList.drop i)) with
  | some i => String.mk (s.toList.take i ++ s.toList.drop (i + pat.toList.length))
  | none => s

/-- Modelled from the spec: the casing transform used for display names
(generator/helpers.ts is not among the provided sources).  It capitalizes
the first character of the raw name. -/
def pascalCase (s : String) : String :=
  match s.toList with
  | [] => ""
  | c :: cs => String.mk (c.toUpper :: cs)

/-- Modelled from the spec: the camel-casing helper (generator/helpers.ts is
not among the provided sources).  It lowercases the first character. -/
def camelCase (s : String) : String :=
  match s.toList with
  | [] => ""
  | c :: cs => String.mk (c.toLower :: cs)

/-- JS template-literal rendering of a possibly-undefined string: an absent
value is interpolated as the text "undefined". -/
def jsStr : Option String → String
  | some s => s
  | none => "undefined"

/-- JS RegExp test for the unanchored pattern dot-plus w1 dot-plus w2
(used in the source as .+Create.+Input and .+Update.+Input): the string
contains an occurrence of w1 preceded by at least one non-newline character
and followed, after at least one non-newline character, by an occurrence of
w2. -/
def jsDotPlusTest (w1 w2 : String) (s : String) : Bool :=
  let cs := s.toList
  (List.range cs.length).any fun i =>
    decide (1 ≤ i) &&
    (match cs.get? (i - 1) with
     | some c => c != '\n'
     | none => false) &&
    w1.toList.isPrefixOf (cs.drop i) &&
    ((List.range cs.length).any fun j =>
      decide (i + w1.toList.length < j) &&
      w2.toList.isPrefixOf (cs.drop j) &&
      ((cs.drop (i + w1.toList.length)).take (j - (i + w1.toList.length))).all
        (fun c => c != '\n'))

/-! ### Raw schema data model (Prisma DMMF side) -/

/-- Storage location of a type reference (DMMF field location). -/
inductive TypeLocation where
  | scalar
  | enumTypes
  | inputObjectTypes
  | outputObjectTypes
deriving DecidableEq, Repr

/-- One candidate input-type reference of a schema argument. -/
structure InputTypeRef where
  location : TypeLocation
  type : String
  isList : Bool
deriving DecidableEq, Repr

/-- A resolved type reference (location, target name, list-ness). -/
structure TypeInfoE where
  location : TypeLocation
  isList : Bool
  type : String
deriving DecidableEq, Repr

/-- Kind tag of a datamodel field. -/
inductive FieldKind where
  | scalar
  | object
  | enumKind
  | unsupported
deriving DecidableEq, Repr

/-- The per-field input-omission sub-contexts from config (InputOmitSetting). -/
inductive InputOmitSetting where
  | create
  | update
  | whereFilter
  | orderBy
deriving DecidableEq, Repr

/-- The value of an omit-input annotation: either a plain flag or a list of
sub-contexts. -/
inductive OmitInputValue where
  | flag (b : Bool)
  | kinds (ks : List InputOmitSetting)
deriving DecidableEq, Repr

/-- Composite primary key declaration of a model. -/
structure PrimaryKeyDef where
  name : Option String
  fields : List String
deriving DecidableEq, Repr

/-- A composite unique index declaration of a model. -/
structure UniqueIndexDef where
  name : Option String
  fields : List String
deriving DecidableEq, Repr

/-- A raw datamodel field.  The documentation-attribute helpers are not among
the provided sources, so the parse results of the field documentation
(field alias, omit settings) are modelled from the spec as structured
optional attributes. -/
structure RawField where
  name : String
  kind : FieldKind
  type : String
  isList : Bool := false
  isRequired : Bool := false
  isId : Bool := false
  isUnique : Bool := false
  relationName : Option String := none
  docFieldNameAttr : Option String := none
  docOmitInput : Option OmitInputValue := none
  docOmitOutput : Option Bool := none
deriving DecidableEq, Repr

/-- A raw datamodel model.  As for fields, the parsed documentation
attributes (explicit type alias, plural, omit-output flag) are modelled
from the spec as structured optional attributes. -/
structure RawModel where
  name : String
  docNameAttr : Option String := none
  docPluralAttr : Option String := none
  docOmitOutput : Bool := false
  docs : Option String := none
  fields : List RawField := []
  primaryKey : Option PrimaryKeyDef := none
  uniqueIndexes : List UniqueIndexDef := []
deriving DecidableEq, Repr

/-! ### Generator options (subset relevant to the claims) -/

/-- The configuration options read by the embedded functions. -/
structure GeneratorOptionsE where
  useSimpleInputs : Bool := false
  useUncheckedScalarInputs : Bool := false
  omitInputFieldsByDefault : Option (List String) := none
  omitOutputFieldsByDefault : Option (List String) := none
deriving DecidableEq, Repr

/-! ### Transformed (semantic) data model -/

/-- A transformed model field (DMMF.ModelField).  The source stores the
resolved type reference only inside the rendered display strings
(fieldTSType, typeGraphQLType) computed by helpers that are not among the
provided sources; the embedding records the resolved reference itself,
which is the value computed at transform.ts lines 97 to 103 and fed into
those renderers. -/
structure ModelFieldE where
  name : String
  kind : FieldKind
  type : String
  isList : Bool
  isRequired : Bool
  isId : Bool
  isUnique : Bool
  relationName : Option String
  location : TypeLocation
  typeFieldAlias : Option String
  typeInfo : TypeInfoE
  isOmittedInput : OmitInputValue
  isOmittedOutput : Bool
deriving DecidableEq, Repr

/-- A transformed model (DMMF.Model). -/
structure ModelE where
  name : String
  typeName : String
  plural : Option String
  docs : Option String
  isOmittedOutput : Bool
  fields : List ModelFieldE
  primaryKey : Option PrimaryKeyDef
  uniqueIndexes : List UniqueIndexDef
deriving DecidableEq, Repr

/-- transformBareModel (transform.ts lines 50 to 66): computes the display
name from the explicit alias annotation, falling back to the casing
transform of the raw name; fields stay empty in this first pass. -/
def transformBareModel (model : RawModel) : ModelE :=
  { name := model.name
    typeName := model.docNameAttr.getD (pascalCase model.name)
    plural := model.docPluralAttr
    docs := model.docs
    isOmittedOutput := model.docOmitOutput
    fields := []
    primaryKey := model.primaryKey
    uniqueIndexes := model.uniqueIndexes }

/-! ### DmmfDocument lookup state -/

/-- The part of DmmfDocument observed by the name-resolution functions:
the current models list and the modelsCache map (raw name to transformed
model).  During the second construction pass the cache is only partially
populated, exactly as in the source. -/
structure DmmfState where
  models : List ModelE
  modelsCache : List (String × ModelE)
deriving Repr

/-- DmmfDocument.getModelTypeName: exact cache lookup first, then a
case-insensitive fallback search over the models list. -/
def DmmfState.getModelTypeName (st : DmmfState) (modelName : String) : Option String :=
  match st.modelsCache.lookup modelName with
  | some m => some m.typeName
  | none =>
    (st.models.find? (fun it => strLower it.name == strLower modelName)).map
      (fun m => m.typeName)

/-- DmmfDocument.isModelName: membership test on the modelsCache only. -/
def DmmfState.isModelName (st : DmmfState) (typeName : String) : Bool :=
  (st.modelsCache.lookup typeName).isSome

/-! ### Input-variant selection (transform.ts lines 444 to 495) -/

/-- The denylist of compound-operation input shapes excluded when simplified
inputs are requested (the filter of transform.ts lines 450 to 462). -/
def denylistCompound (t : String) : Bool :=
  strIncludes t "OperationsInput" ||
  strIncludes t "CreateEnvelopeInput" ||
  jsDotPlusTest "Create" "Input" t ||
  jsDotPlusTest "Update" "Input" t

/-- The final pick among surviving candidates (transform.ts lines 474 to
480): a list-typed candidate, else an Unchecked-named one when that mode is
enabled, else the first survivor. -/
def selectPick (useUnchecked : Bool) (possible : List InputTypeRef) : Option InputTypeRef :=
  (possible.find? (fun it => it.isList)) <|>
    (if useUnchecked then
      possible.find? (fun it => strIncludes it.type "Unchecked")
    else none) <|>
    possible.head?

/-- The candidate filtering cascade of selectInputTypeFromTypes
(transform.ts lines 449 to 473): input-object candidates (excluding the
compound-operation denylist when simplified inputs are requested), else
non-Null scalars, else enumeration candidates, else every candidate. -/
def selectSurvivors (opts : GeneratorOptionsE)
    (inputTypes : List InputTypeRef) : List InputTypeRef :=
  let possible1 := inputTypes.filter fun it =>
    it.location == TypeLocation.inputObjectTypes &&
      (!opts.useSimpleInputs || !denylistCompound it.type)
  let possible2 :=
    if possible1.isEmpty then
      inputTypes.filter fun it =>
        it.location == TypeLocation.scalar && it.type != "Null"
    else possible1
  let possible3 :=
    if possible2.isEmpty then
      inputTypes.filter fun it => it.location == TypeLocation.enumTypes
    else possible2
  if possible3.isEmpty then inputTypes else possible3

/-- selectInputTypeFromTypes (transform.ts lines 444 to 481): the filtering
cascade followed by the final pick.  The name-rewriting tail of the source
function (lines 482 to 493) only renames the chosen candidate and never
changes which candidate is selected, so the embedding returns the selected
candidate itself; an empty candidate list yields none where the source
would fail on an undefined access. -/
def selectInputTypeFromTypes (opts : GeneratorOptionsE)
    (inputTypes : List InputTypeRef) : Option InputTypeRef :=
  selectPick opts.useUncheckedScalarInputs (selectSurvivors opts inputTypes)

/-- The precedence stages exactly as the specification words them (with the
non-Null scalar refinement): object-shaped candidates first, then scalar,
then enumeration, then any remaining candidate. -/
def selectStagesSpec (inputTypes : List InputTypeRef) : List InputTypeRef :=
  let objects := inputTypes.filter fun it => it.location == TypeLocation.inputObjectTypes
  let scalars := inputTypes.filter fun it =>
    it.location == TypeLocation.scalar && it.type != "Null"
  let enums := inputTypes.filter fun it => it.location == TypeLocation.enumTypes
  if !objects.isEmpty then objects
  else if !scalars.isEmpty then scalars
  else if !enums.isEmpty then enums
  else inputTypes

/-- The survivor preference exactly as the specification words it: prefer a
list-typed survivor, else an Unchecked variant when that mode is enabled,
else the first survivor. -/
def selectPickSpec (useUnchecked : Bool) (survivors : List InputTypeRef) : Option InputTypeRef :=
  match survivors.find? (fun it => it.isList) with
  | some r => some r
  | none =>
    match (if useUnchecked then
        survivors.find? (fun it => strIncludes it.type "Unchecked")
      else none) with
    | some r => some r
    | none => survivors.head?

/-- The whole selection precedence as the specification words it. -/
def selectInputTypeSpec (useUnchecked : Bool) (inputTypes : List InputTypeRef) : Option InputTypeRef :=
  selectPickSpec useUnchecked (selectStagesSpec inputTypes)

/-! ### Model field transformation and the two-pass constructor -/

/-- transformModelField (transform.ts lines 77 to 141): classifies the field
by kind, resolves the target type name through the document lookup state
(lines 97 to 103), and computes the omission flags from the field
annotations and the configured defaults.  The rendered display strings
(fieldTSType, typeGraphQLType) are produced by helpers not among the
provided sources; the resolved type reference they consume is kept as
typeInfo. -/
def transformModelField (opts : GeneratorOptionsE) (st : DmmfState)
    (field : RawField) : ModelFieldE :=
  let location :=
    match field.kind with
    | FieldKind.enumKind => TypeLocation.enumTypes
    | FieldKind.object => TypeLocation.outputObjectTypes
    | _ => TypeLocation.scalar
  let typeInfo : TypeInfoE :=
    { location := location
      isList := field.isList
      type :=
        if st.isModelName field.type then
          (st.getModelTypeName field.type).getD field.type
        else field.type }
  { name := field.name
    kind := field.kind
    type := field.type
    isList := field.isList
    isRequired := field.isRequired
    isId := field.isId
    isUnique := field.isUnique
    relationName := field.relationName
    location := location
    typeFieldAlias := field.docFieldNameAttr
    typeInfo := typeInfo
    isOmittedInput :=
      match field.docOmitInput with
      | some v => v
      | none =>
        OmitInputValue.flag
          ((opts.omitInputFieldsByDefault.map
            (fun l => l.contains field.name)).getD false)
    isOmittedOutput :=
      match field.docOmitOutput with
      | some b => b
      | none =>
        (opts.omitOutputFieldsByDefault.map
          (fun l => l.contains field.name)).getD false }

/-- transformModelWithFields (transform.ts lines 68 to 75). -/
def transformModelWithFields (opts : GeneratorOptionsE) (st : DmmfState)
    (model : RawModel) : ModelE :=
  { transformBareModel model with
      fields := model.fields.map (transformModelField opts st) }

/-- The two construction passes of the DmmfDocument constructor (dmmf
document module, lines 57 to 91): pass one maps every raw model to its bare
shape (display names computed, fields empty); pass two walks the raw models
again, transforming each model with fields against a lookup state whose
models list is the completed pass-one result and whose modelsCache grows as
each transformed model is inserted after its own transformation, exactly as
in the source loop. -/
def constructorModels (opts : GeneratorOptionsE) (raw : List RawModel) : List ModelE :=
  let bare := raw.map transformBareModel
  (raw.foldl
    (fun acc m =>
      let st : DmmfState := { models := bare, modelsCache := acc.2 }
      let t := transformModelWithFields opts st m
      (acc.1 ++ [t], acc.2 ++ [(m.name, t)]))
    (([] : List ModelE), ([] : List (String × ModelE)))).1

/-- The modelsCache contents after the constructor finished: every raw model
name mapped to its fully transformed model. -/
def constructorCache (opts : GeneratorOptionsE) (raw : List RawModel) : List (String × ModelE) :=
  let bare := raw.map transformBareModel
  (raw.foldl
    (fun acc m =>
      let st : DmmfState := { models := bare, modelsCache := acc.2 }
      let t := transformModelWithFields opts st m
      (acc.1 ++ [t], acc.2 ++ [(m.name, t)]))
    (([] : List ModelE), ([] : List (String × ModelE)))).2

/-! ### Output-type name mapping and its memoization cache -/

/-- The dedicated aggregate output-type suffix list of transform.ts lines
290 to 298, in source order. -/
def dedicatedTypeSuffixes : List String :=
  ["CountAggregateOutputType", "MinAggregateOutputType", "MaxAggregateOutputType",
   "AvgAggregateOutputType", "SumAggregateOutputType", "GroupByOutputType",
   "CountOutputType"]

/-- getMappedOutputTypeName (transform.ts lines 300 to 347), without the
cache (the uncached computation of lines 310 to 342).  The error case is
the explicit throw of line 329, reachable only when the cached model has an
empty display name (JS falsiness of the empty string). -/
def getMappedOutputTypeName (st : DmmfState) (outputTypeName : String) : Except String String :=
  if strStartsWith outputTypeName "Aggregate" then
    Except.ok ("Aggregate" ++ jsStr (st.getModelTypeName (strDrop outputTypeName 9)))
  else if strStartsWith outputTypeName "CreateMany" &&
      strEndsWith outputTypeName "AndReturnOutputType" then
    Except.ok ("CreateManyAndReturn" ++
      jsStr (st.getModelTypeName (strDropRight (strDrop outputTypeName 10) 19)))
  else if st.isModelName outputTypeName then
    match st.getModelTypeName outputTypeName with
    | some r =>
      if r.isEmpty then Except.error ("Model type not found for " ++ outputTypeName)
      else Except.ok r
    | none => Except.error ("Model type not found for " ++ outputTypeName)
  else
    match dedicatedTypeSuffixes.find? (fun suffix => strEndsWith outputTypeName suffix) with
    | some suffix =>
      Except.ok
        (jsStr (st.getModelTypeName (strDropRight outputTypeName suffix.toList.length)) ++
          replaceFirstWithEmpty suffix "OutputType")
    | none => Except.ok outputTypeName

/-- The memoized entry point of getMappedOutputTypeName: check the
module-level cache first (lines 305 to 308), otherwise compute and record
the result (lines 344 to 346); a throw leaves the cache untouched. -/
def cachedMappedOutputTypeName (st : DmmfState) (cache : List (String × String))
    (outputTypeName : String) : Except String String × List (String × String) :=
  match cache.lookup outputTypeName with
  | some r => (Except.ok r, cache)
  | none =>
    match getMappedOutputTypeName st outputTypeName with
    | Except.ok r => (Except.ok r, cache ++ [(outputTypeName, r)])
    | Except.error e => (Except.error e, cache)

/-- A cache state is consistent when every stored entry equals the uncached
computation on its key. -/
def GoodCache (st : DmmfState) (cache : List (String × String)) : Prop :=
  ∀ p ∈ cache, getMappedOutputTypeName st p.1 = Except.ok p.2

/-! ### Sequential map with exception propagation -/

/-- Sequential map where the body may throw: the JS Array.prototype.map
semantics when the callback can raise, stopping at the first error. -/
def mapExcept {α β ε : Type} (g : α → Except ε β) : List α → Except ε (List β)
  | [] => Except.ok []
  | x :: xs => do
    let y ← g x
    let ys ← mapExcept g xs
    pure (y :: ys)

/-! ### Relation-resolver identity filter (resolvers/relations.ts) -/

/-- The where-filter that a relation-resolver method uses to refetch the
parent record by identity.  For a single filter field the emitted condition
pairs the field name with the projection of the same name from the parent
root object; for a composite filter the field/projection pairs are nested
under the composite key name. -/
inductive WhereCondition where
  | single (fieldName : String)
  | composite (keyName : String) (fieldNames : List String)
deriving DecidableEq, Repr

/-- Resolution of one declared key field name against the model field list
(the fieldsCache lookups of relations.ts lines 48 to 68), throwing when
the field is missing. -/
def resolveKeyField (model : ModelE) (kind : String) (keyField : String) :
    Except String ModelFieldE :=
  match model.fields.find? (fun f => f.name == keyField) with
  | some f => Except.ok f
  | none =>
    Except.error (kind ++ " field " ++ keyField ++ " not found in model " ++
      model.name ++ " fields")

/-- The identity-filter computation of
generateRelationsResolverClassesFromModel (relations.ts lines 32 to 140):
first id field else first unique field as the single filter; otherwise the
primary-key fields else the first unique-index fields as the composite
filter, resolved eagerly against the field list (lines 48 to 68, throwing
on a missing field); the whereConditionString branch of lines 117 to 140
then selects the condition, with the composite key named by the chain
primary-key name, else first unique-index name, else the underscore-joined
field names, and throws when no filter exists at all. -/
def relationWhereCondition (model : ModelE) : Except String WhereCondition := do
  let singleIdField := model.fields.find? (fun f => f.isId)
  let singleUniqueField := model.fields.find? (fun f => f.isUnique)
  let singleFilterField := singleIdField <|> singleUniqueField
  let compositeIdFields ←
    match model.primaryKey with
    | none => pure []
    | some pk => mapExcept (resolveKeyField model "Primary key") pk.fields
  let compositeUniqueFields ←
    match model.uniqueIndexes.head? with
    | none => pure []
    | some u => mapExcept (resolveKeyField model "Unique") u.fields
  let compositeFilterFields :=
    if 0 < compositeIdFields.length then compositeIdFields else compositeUniqueFields
  match singleFilterField with
  | some f => pure (WhereCondition.single f.name)
  | none =>
    if 0 < compositeFilterFields.length then
      let filterKeyName :=
        ((model.primaryKey.bind (fun pk => pk.name)) <|>
          (model.uniqueIndexes.head?.bind (fun u => u.name))).getD
          (String.intercalate "_" (compositeFilterFields.map (fun f => f.name)))
      pure (WhereCondition.composite filterKeyName
        (compositeFilterFields.map (fun f => f.name)))
    else
      Except.error ("Unexpected error happened on generating whereConditionString for " ++
        model.typeName ++ " relation resolver")

/-- Well-formedness of the declared keys: every field name listed in the
primary key and in the first unique index is present in the model's field
list (a violation is one of the fatal schema-inconsistency errors). -/
def KeyFieldsResolvable (model : ModelE) : Prop :=
  (match model.primaryKey with
   | some pk => ∀ n ∈ pk.fields, ∃ f ∈ model.fields, f.name = n
   | none => True) ∧
  (match model.uniqueIndexes.head? with
   | some u => ∀ n ∈ u.fields, ∃ f ∈ model.fields, f.name = n
   | none => True)

/-- The composite filter fields the amended claim designates: the primary
key field names when a primary key with fields exists, else the first
unique index's field names. -/
def compositeFieldNamesSpec (model : ModelE) : List String :=
  match model.primaryKey with
  | some pk => if pk.fields.isEmpty then
      ((model.uniqueIndexes.head?).map (fun u => u.fields)).getD []
    else pk.fields
  | none => ((model.uniqueIndexes.head?).map (fun u => u.fields)).getD []

/-- The composite key name the amended claim designates: the primary key's
declared name, else the first unique index's declared name, else the
underscore-joined concatenation of the chosen composite field names. -/
def compositeKeyNameSpec (model : ModelE) : String :=
  ((model.primaryKey.bind (fun pk => pk.name)) <|>
    (model.uniqueIndexes.head?.bind (fun u => u.name))).getD
    (String.intercalate "_" (compositeFieldNamesSpec model))

/-! ### Relation-model derivation (DmmfDocument constructor, lines 128 to 145) -/

/-- A transformed schema argument (DMMF.SchemaArg). -/
structure SchemaArgE where
  name : String
  isRequired : Bool
  inputTypes : List InputTypeRef
  deprecation : Option String
  selectedInputType : Option InputTypeRef
  typeName : String
  hasMappedName : Bool
  isOmitted : Bool
deriving DecidableEq, Repr

/-- A transformed output-type field (DMMF.OutputSchemaField). -/
structure OutputSchemaFieldE where
  name : String
  isRequired : Bool
  outputType : TypeInfoE
  args : List SchemaArgE
  argsTypeName : Option String
  deprecation : Option String
deriving DecidableEq, Repr

/-- A transformed output type (DMMF.OutputType). -/
structure OutputTypeE where
  name : String
  typeName : String
  fields : List OutputSchemaFieldE
deriving DecidableEq, Repr

/-- The relation-model qualification filter of the DmmfDocument constructor
(lines 128 to 145): keep the models with at least one non-output-omitted
relation field, then keep those whose cached output type has a field whose
name matches such a relation field (a missing output type fails the
test, as the optional chain yields a falsy value). -/
def relationModelsOf (models : List ModelE)
    (outputTypeCache : List (String × OutputTypeE)) : List ModelE :=
  (models.filter fun model =>
    model.fields.any fun f => f.relationName.isSome && !f.isOmittedOutput).filter
    fun model =>
      match outputTypeCache.lookup model.name with
      | none => false
      | some outputType =>
        outputType.fields.any fun outputTypeField =>
          model.fields.any fun modelField =>
            modelField.name == outputTypeField.name &&
            modelField.relationName.isSome && !modelField.isOmittedOutput

/-! ### Input-type and output-type transformation (transform.ts lines 152 to 280) -/

/-- A raw schema argument (Prisma DMMF SchemaArg). -/
structure SchemaArgRaw where
  name : String
  isRequired : Bool := false
  inputTypes : List InputTypeRef := []
  deprecation : Option String := none
deriving DecidableEq, Repr

/-- A raw input object type. -/
structure InputTypeRaw where
  name : String
  fields : List SchemaArgRaw := []
deriving DecidableEq, Repr

/-- A raw output-type field. -/
structure OutputFieldRaw where
  name : String
  isNullable : Bool := false
  outputType : TypeInfoE
  args : List SchemaArgRaw := []
  deprecation : Option String := none
deriving DecidableEq, Repr

/-- A raw output object type. -/
structure OutputTypeRaw where
  name : String
  fields : List OutputFieldRaw := []
deriving DecidableEq, Repr

/-- A transformed input type (DMMF.InputType). -/
structure InputTypeE where
  name : String
  typeName : String
  fields : List SchemaArgE
deriving DecidableEq, Repr

/-- transformInputType (transform.ts lines 152 to 207): deprecated fields
are dropped, each surviving field gets its selected input-type variant,
its mapped name from the model field alias, and its contextual omission
flag.  The helpers getModelNameFromInputType and getInputTypeName live in
a file not among the provided sources and are taken as parameters
(modelled from the spec as name-resolution functions of the raw input-type
name). -/
def transformInputType (opts : GeneratorOptionsE)
    (getModelNameFromInputType : String → Option String)
    (getInputTypeName : String → String)
    (modelsCache : List (String × ModelE))
    (inputType : InputTypeRaw) : InputTypeE :=
  let modelType :=
    (getModelNameFromInputType inputType.name).bind fun modelName =>
      modelsCache.lookup modelName
  { name := inputType.name
    typeName := getInputTypeName inputType.name
    fields :=
      (inputType.fields.filter fun field => field.deprecation.isNone).map fun field =>
        let modelField := modelType.bind fun mt =>
          mt.fields.find? (fun f => f.name == field.name)
        let typeName := (modelField.bind (fun mf => mf.typeFieldAlias)).getD field.name
        let selectedInputType := selectInputTypeFromTypes opts field.inputTypes
        let isOmitted :=
          match modelField with
          | none => false
          | some mf =>
            match mf.isOmittedInput with
            | OmitInputValue.flag b => b
            | OmitInputValue.kinds ks =>
              (ks.contains InputOmitSetting.create && strIncludes inputType.name "Create") ||
              (ks.contains InputOmitSetting.update && strIncludes inputType.name "Update") ||
              (ks.contains InputOmitSetting.whereFilter && strIncludes inputType.name "Where") ||
              (ks.contains InputOmitSetting.orderBy && strIncludes inputType.name "OrderBy")
        { name := field.name
          isRequired := field.isRequired
          inputTypes := field.inputTypes
          deprecation := field.deprecation
          selectedInputType := selectedInputType
          typeName := typeName
          hasMappedName := field.name != typeName
          isOmitted := isOmitted } }

/-- The per-field body of transformOutputType (transform.ts lines 217 to
276): field requiredness excludes nullable fields and the synthetic _count
field, the field's output type is mapped through getMappedOutputTypeName,
each argument gets its selected input-type variant, and fields with
arguments get the deterministic argument-bundle type name. -/
def transformOutputField (opts : GeneratorOptionsE) (st : DmmfState)
    (typeName : String) (field : OutputFieldRaw) : Except String OutputSchemaFieldE := do
  let isFieldRequired := !field.isNullable && field.name != "_count"
  let mappedFieldType ← getMappedOutputTypeName st field.outputType.type
  let outputTypeInfo : TypeInfoE := { field.outputType with type := mappedFieldType }
  let args := field.args.map fun arg =>
    let selectedInputType := selectInputTypeFromTypes opts arg.inputTypes
    ({ name := arg.name
       isRequired := arg.isRequired
       inputTypes := arg.inputTypes
       deprecation := arg.deprecation
       selectedInputType := selectedInputType
       hasMappedName := arg.name != typeName
       typeName := arg.name
       isOmitted := false } : SchemaArgE)
  let argsTypeName :=
    if 0 < (args : List SchemaArgE).length then
      some (typeName ++ pascalCase field.name ++ "Args")
    else none
  pure ({ name := field.name
          isRequired := isFieldRequired
          outputType := outputTypeInfo
          args := args
          argsTypeName := argsTypeName
          deprecation := field.deprecation } : OutputSchemaFieldE)

/-- transformOutputType (transform.ts lines 209 to 280): the mapped type
name, the deprecation filter, and the per-field transformation above. -/
def transformOutputType (opts : GeneratorOptionsE) (st : DmmfState)
    (outputType : OutputTypeRaw) : Except String OutputTypeE := do
  let typeName ← getMappedOutputTypeName st outputType.name
  let fields ←
    mapExcept (transformOutputField opts st typeName)
      (outputType.fields.filter fun field => field.deprecation.isNone)
  pure { name := outputType.name, typeName := typeName, fields := fields }

/-! ### Block generator orchestration (block-generator-factory, lines 88 to 128) -/

/-- One observable event of the orchestrator loop: a block generation
starting (the generate call being entered), finishing (the awaited call
having returned), or the metrics observer callback firing for a block. -/
inductive OrchestratorEvent where
  | genStart (block : String)
  | genFinish (block : String)
  | metricsEmit (block : String) (items : Nat)
deriving DecidableEq, Repr

/-- The fixed emission order of generateAllBlocks (lines 94 to 101). -/
def blockOrder : List String :=
  ["enums", "models", "outputs", "inputs", "relationResolvers", "crudResolvers"]

/-- The generator registry keys, in the insertion order of
initializeGenerators (lines 80 to 85). -/
def registeredBlocks : List String :=
  ["enums", "models", "inputs", "outputs", "relationResolvers", "crudResolvers"]

/-- The loop body of generateAllBlocks (lines 103 to 125) as an event
trace: missing registry entries are skipped, each present generator is run
to completion before the next begins, and the metrics callback fires after
the generate call returned, only when a callback was supplied and the
block reported a strictly positive itemsGenerated count. -/
def generateBlocksLoop (registered : List String) (itemsOf : String → Nat)
    (hasCallback : Bool) : List String → List OrchestratorEvent
  | [] => []
  | blockName :: rest =>
    if registered.contains blockName then
      [OrchestratorEvent.genStart blockName, OrchestratorEvent.genFinish blockName] ++
      (if hasCallback && decide (0 < itemsOf blockName) then
        [OrchestratorEvent.metricsEmit blockName (itemsOf blockName)]
      else []) ++
      generateBlocksLoop registered itemsOf hasCallback rest
    else generateBlocksLoop registered itemsOf hasCallback rest

/-- generateAllBlocks: the loop run over the fixed block order. -/
def generateAllBlocksTrace (registered : List String) (itemsOf : String → Nat)
    (hasCallback : Bool) : List OrchestratorEvent :=
  generateBlocksLoop registered itemsOf hasCallback blockOrder

/-- Keep only the generation start/finish events of a trace. -/
def genEventsOf : List OrchestratorEvent → List OrchestratorEvent
  | [] => []
  | OrchestratorEvent.metricsEmit _ _ :: rest => genEventsOf rest
  | e :: rest => e :: genEventsOf rest

/-- The blocks for which the metrics observer callback fired, in firing
order. -/
def callbackBlocksOf : List OrchestratorEvent → List String
  | [] => []
  | OrchestratorEvent.metricsEmit b _ :: rest => b :: callbackBlocksOf rest
  | _ :: rest => callbackBlocksOf rest

/-! ### Pipeline tail: persistence, formatting, completion
(generate-code module, CodeGenerator.generate lines 989 to 1084) -/

/-- The configurable post-processing strategies. -/
inductive FormatKind where
  | tsc
  | prettier
  | biome
deriving DecidableEq, Repr

/-- The per-strategy timing metric name emitted on success. -/
def formatMetricName : FormatKind → String
  | FormatKind.tsc => "tsc-formatting"
  | FormatKind.prettier => "prettier-formatting"
  | FormatKind.biome => "biome-formatting"

/-- The pipeline state after the emitted files were persisted: the saved
output tree, the warnings logged so far, the metric phases emitted so far,
and whether the generate call ran to completion. -/
structure PipelineState where
  savedFiles : List String
  warnings : List String
  metricPhases : List String
  generationDone : Bool
deriving DecidableEq, Repr

/-- The optional formatting step (lines 1002 to 1079): when a strategy is
configured, the external formatter is invoked inside a try/catch; on
success the strategy metric and the code-formatting metric are emitted, on
failure the error is caught and logged as a warning, leaving the persisted
output tree untouched. -/
def runFormattingStep (formatGeneratedCode : Option FormatKind)
    (formatterOutcome : Except String Unit) (st : PipelineState) : PipelineState :=
  match formatGeneratedCode with
  | none => st
  | some kind =>
    match formatterOutcome with
    | Except.ok _ =>
      { st with metricPhases := st.metricPhases ++ [formatMetricName kind, "code-formatting"] }
    | Except.error e =>
      { st with warnings := st.warnings ++ ["Warning: Code formatting failed: " ++ e] }

/-- The unconditional tail of the generate call (lines 1081 to 1084):
final metrics are emitted and the run completes. -/
def finishGeneration (st : PipelineState) : PipelineState :=
  { st with
      metricPhases := st.metricPhases ++ ["code-emission", "total-generation"]
      generationDone := true }

/-- The pipeline tail from the persisted state onward: the formatting step
followed by completion. -/
def emitAndFormat (formatGeneratedCode : Option FormatKind)
    (formatterOutcome : Except String Unit) (st : PipelineState) : PipelineState :=
  finishGeneration (runFormattingStep formatGeneratedCode formatterOutcome st)

/-! ### Concrete example inputs used by counterexamples and witnesses -/

/-- Options with every flag at its default. -/
def optsDefault : GeneratorOptionsE := {}

/-- Options with simplified inputs enabled. -/
def optsSimple : GeneratorOptionsE := { useSimpleInputs := true }

/-- A raw model A with a single relation field typed by the model B that
comes later in the input order. -/
def rawModelA : RawModel :=
  { name := "A"
    fields := [{ name := "b"
                 kind := FieldKind.object
                 type := "B"
                 isRequired := true
                 relationName := some "AToB" }] }

/-- A raw model B carrying an explicit display-name alias. -/
def rawModelB : RawModel :=
  { name := "B", docNameAttr := some "Bee" }

/-- A model whose raw name and aliased display name differ beyond casing. -/
def modelUserAccount : ModelE :=
  transformBareModel { name := "user", docNameAttr := some "Account" }

/-- The document lookup state after construction for the single aliased
model. -/
def stateUserAccount : DmmfState :=
  { models := [modelUserAccount], modelsCache := [("user", modelUserAccount)] }

/-- A plain scalar model field used to build example models. -/
def mkScalarField (n : String) : ModelFieldE :=
  { name := n
    kind := FieldKind.scalar
    type := "Int"
    isList := false
    isRequired := true
    isId := false
    isUnique := false
    relationName := none
    location := TypeLocation.scalar
    typeFieldAlias := none
    typeInfo := { location := TypeLocation.scalar, isList := false, type := "Int" }
    isOmittedInput := OmitInputValue.flag false
    isOmittedOutput := false }

/-- A model with an unnamed composite primary key over a and b and a named
composite unique index u over c, and no single id or unique field. -/
def modelPkUnnamedUniqNamed : ModelE :=
  { name := "Thing"
    typeName := "Thing"
    plural := none
    docs := none
    isOmittedOutput := false
    fields := [mkScalarField "a", mkScalarField "b", mkScalarField "c"]
    primaryKey := some { name := none, fields := ["a", "b"] }
    uniqueIndexes := [{ name := some "u", fields := ["c"] }] }

/-- A candidate list whose only member is a compound-operation input
object. -/
def onlyCompoundCandidates : List InputTypeRef :=
  [{ location := TypeLocation.inputObjectTypes
     type := "IntFieldUpdateOperationsInput"
     isList := false }]

/-- A plain Int scalar candidate. -/
def scalarIntRef : InputTypeRef :=
  { location := TypeLocation.scalar, type := "Int", isList := false }

/-- A mixed candidate list used by the selection witness: a compound input
object next to a plain scalar. -/
def mixedCandidates : List InputTypeRef :=
  [{ location := TypeLocation.inputObjectTypes
     type := "IntFieldUpdateOperationsInput"
     isList := false },
   scalarIntRef]

/-- A tiny lookup state with no models at all. -/
def stateEmpty : DmmfState :=
  { models := [], modelsCache := [] }

/-- A raw input type with one deprecated and one live field. -/
def inputTypeWitness : InputTypeRaw :=
  { name := "ProofInput"
    fields := [{ name := "dead", deprecation := some "reason" },
               { name := "kept", inputTypes := [scalarIntRef] }] }

/-- A raw output type with one deprecated and one live field. -/
def outputTypeWitness : OutputTypeRaw :=
  { name := "Proof"
    fields := [{ name := "old"
                 outputType := { location := TypeLocation.scalar, isList := false, type := "Int" }
                 deprecation := some "reason" },
               { name := "live"
                 outputType := { location := TypeLocation.scalar, isList := false, type := "Int" } }] }

/-- The transformed shape expected for the live output field. -/
def outputTypeWitnessResult : OutputTypeE :=
  { name := "Proof"
    typeName := "Proof"
    fields := [{ name := "live"
                 isRequired := true
                 outputType := { location := TypeLocation.scalar, isList := false, type := "Int" }
                 args := []
                 argsTypeName := none
                 deprecation := none }] }

/-! ## Shared helper lemmas -/

/-- A successful association-list lookup exhibits a member pair. -/
theorem lookup_mem_of_eq_some {β : Type} {l : List (String × β)} {k : String} {v : β}
    (h : l.lookup k = some v) : (k, v) ∈ l := by
  induction l with
  | nil => simp [List.lookup] at h
  | cons p rest ih =>
    obtain ⟨pk, pv⟩ := p
    rw [List.lookup] at h
    cases hbe : k == pk with
    | true =>
      rw [hbe] at h
      simp only [Option.some.injEq] at h
      subst h
      have : k = pk := by simpa using hbe
      subst this
      exact List.mem_cons_self _ _
    | false =>
      rw [hbe] at h
      exact List.mem_cons_of_mem _ (ih h)

/-- Every element of a successful mapExcept result comes from applying the
body to some element of the inputs. -/
theorem mapExcept_ok_mem {α β ε : Type} {g : α → Except ε β} :
    ∀ {l : List α} {ys : List β}, mapExcept g l = Except.ok ys →
      ∀ y ∈ ys, ∃ x ∈ l, g x = Except.ok y := by
  intro l
  induction l with
  | nil =>
    intro ys h y hy
    simp only [mapExcept] at h
    cases h
    cases hy
  | cons x xs ih =>
    intro ys h y hy
    simp only [mapExcept] at h
    cases hg : g x with
    | error e => rw [hg] at h; cases h
    | ok y0 =>
      rw [hg] at h
      cases hrec : mapExcept g xs with
      | error e =>
        rw [hrec] at h
        cases h
      | ok ys0 =>
        rw [hrec] at h
        simp only [Except.bind, pure, Except.pure] at h
        cases h
        rcases List.mem_cons.mp hy with rfl | hy'
        · exact ⟨x, List.mem_cons_self _ _, hg⟩
        · obtain ⟨x', hx', hgx'⟩ := ih hrec y hy'
          exact ⟨x', List.mem_cons_of_mem _ hx', hgx'⟩

/-- Binding a successful Except value applies the continuation. -/
theorem exceptBind_ok {ε α β : Type} (a : α) (f : α → Except ε β) :
    (Except.ok a >>= f) = f a := rfl

/-- Pure for Except is the ok constructor. -/
theorem exceptPure {ε α : Type} (a : α) :
    (pure a : Except ε α) = Except.ok a := rfl

/-- The chosen candidate of the final pick is one of the survivors. -/
theorem selectPick_mem {u : Bool} {l : List InputTypeRef} {x : InputTypeRef}
    (h : selectPick u l = some x) : x ∈ l := by
  unfold selectPick at h
  cases hf : l.find? (fun it => it.isList) with
  | some r =>
    rw [hf] at h
    cases h
    exact List.mem_of_find?_eq_some hf
  | none =>
    rw [hf] at h
    cases hu : (if u then l.find? (fun it => strIncludes it.type "Unchecked") else none) with
    | some r =>
      rw [hu] at h
      cases h
      cases u with
      | true => exact List.mem_of_find?_eq_some (by simpa using hu)
      | false => simp at hu
    | none =>
      rw [hu] at h
      simp only [Option.orElse_none, Option.none_orElse] at h
      cases l with
      | nil => cases h
      | cons a rest =>
        cases h
        exact List.mem_cons_self _ _

/-- The code's final pick agrees with the specification's wording of it. -/
theorem selectPick_eq_spec (u : Bool) (l : List InputTypeRef) :
    selectPick u l = selectPickSpec u l := by
  unfold selectPick selectPickSpec
  cases hf : l.find? (fun it => it.isList) with
  | some r => rfl
  | none =>
    cases hu : (if u then l.find? (fun it => strIncludes it.type "Unchecked") else none) with
    | some r => rfl
    | none => rfl

/-- genEventsOf distributes over list append. -/
theorem genEventsOf_append (l1 l2 : List OrchestratorEvent) :
    genEventsOf (l1 ++ l2) = genEventsOf l1 ++ genEventsOf l2 := by
  induction l1 with
  | nil => rfl
  | cons e rest ih => cases e <;> simp [genEventsOf, ih]

/-- callbackBlocksOf distributes over list append. -/
theorem callbackBlocksOf_append (l1 l2 : List OrchestratorEvent) :
    callbackBlocksOf (l1 ++ l2) = callbackBlocksOf l1 ++ callbackBlocksOf l2 := by
  induction l1 with
  | nil => rfl
  | cons e rest ih => cases e <;> simp [callbackBlocksOf, ih]

/-- Dropping the metrics events of an orchestrator trace leaves the trace
the loop produces with no callback supplied. -/
theorem genEventsOf_generateBlocksLoop (registered : List String)
    (itemsOf : String → Nat) (cb : Bool) (l : List String) :
    genEventsOf (generateBlocksLoop registered itemsOf cb l) =
      generateBlocksLoop registered itemsOf false l := by
  induction l with
  | nil => rfl
  | cons b rest ih =>
    cases hr : registered.contains b with
    | false =>
      simp only [generateBlocksLoop, hr, Bool.false_eq_true, if_false]
      exact ih
    | true =>
      have h2 : genEventsOf
          (if (cb && decide (0 < itemsOf b)) = true then
            [OrchestratorEvent.metricsEmit b (itemsOf b)]
          else []) = [] := by
        split <;> rfl
      simp only [generateBlocksLoop, hr, if_true, Bool.false_and, Bool.false_eq_true,
        if_false, genEventsOf_append, h2, ih]
      rfl

/-- The callback fires exactly for the registered blocks of the order list
whose generation reported a strictly positive item count. -/
theorem callbackBlocks_generateBlocksLoop (registered : List String)
    (itemsOf : String → Nat) (l : List String) (b : String) :
    b ∈ callbackBlocksOf (generateBlocksLoop registered itemsOf true l) ↔
      b ∈ l ∧ registered.contains b = true ∧ 0 < itemsOf b := by
  induction l with
  | nil => simp [generateBlocksLoop, callbackBlocksOf]
  | cons a rest ih =>
    cases hr : registered.contains a with
    | false =>
      simp only [generateBlocksLoop, hr, Bool.false_eq_true, if_false]
      rw [ih]
      constructor
      · rintro ⟨hm, hc, hp⟩
        exact ⟨List.mem_cons_of_mem _ hm, hc, hp⟩
      · rintro ⟨hm, hc, hp⟩
        rcases List.mem_cons.mp hm with rfl | hm'
        · rw [hr] at hc; cases hc
        · exact ⟨hm', hc, hp⟩
    | true =>
      have hmid : callbackBlocksOf
          (if (true && decide (0 < itemsOf a)) = true then
            [OrchestratorEvent.metricsEmit a (itemsOf a)]
          else []) = if 0 < itemsOf a then [a] else [] := by
        by_cases hp : 0 < itemsOf a <;> simp [hp, callbackBlocksOf]
      simp only [generateBlocksLoop, hr, if_true, callbackBlocksOf_append, hmid]
      have hhead : callbackBlocksOf
          [OrchestratorEvent.genStart a, OrchestratorEvent.genFinish a] = [] := rfl
      rw [hhead]
      by_cases hp : 0 < itemsOf a
      · simp only [hp, if_true, List.nil_append, List.cons_append, List.mem_cons]
        rw [ih]
        constructor
        · rintro (rfl | ⟨hm, hc, hpos⟩)
          · exact ⟨Or.inl rfl, hr, hp⟩
          · exact ⟨Or.inr hm, hc, hpos⟩
        · rintro ⟨hm, hc, hpos⟩
          rcases hm with rfl | hm'
          · exact Or.inl rfl
          · exact Or.inr ⟨hm', hc, hpos⟩
      · simp only [hp, if_false, List.nil_append]
        rw [ih]
        constructor
        · rintro ⟨hm, hc, hpos⟩
          exact ⟨List.mem_cons_of_mem _ hm, hc, hpos⟩
        · rintro ⟨hm, hc, hpos⟩
          rcases List.mem_cons.mp hm with rfl | hm'
          · exact absurd hpos hp
          · exact ⟨hm', hc, hpos⟩

/-! ## Claim theorems -/

/-- C3: the claim states that when a field's type reference is resolved in
the second construction pass, the final display name of every entity is
observed, including entities later in the input order.  The code violates
this: with models A and B in that order, where A has an object field of
type B and B carries the explicit alias Bee, pass one already computed the
display names A and Bee, yet A's field resolves its type to the raw name B,
because modelsCache is populated during the same pass and does not yet
contain B when A's fields are transformed. -/
theorem fieldTypeResolution_forwardRef_bug :
    (([rawModelA, rawModelB].map transformBareModel).map (fun m => m.typeName) =
      ["A", "Bee"]) ∧
    ((constructorModels optsDefault [rawModelA, rawModelB]).map
      (fun m => (m.typeName, m.fields.map (fun f => f.typeInfo.type))) =
      [("A", ["B"]), ("Bee", [])]) ∧
    ("B" : String) ≠ "Bee" := by
  refine ⟨rfl, rfl, by decide⟩

/-- C4 counterexample: two distinct entities carrying the same explicit
alias receive the same display name, so display names are not unique
across entities in a run. -/
theorem displayName_unique_cex :
    (transformBareModel { name := "user", docNameAttr := some "Client" }).typeName =
      (transformBareModel { name := "account", docNameAttr := some "Client" }).typeName ∧
    ("user" : String) ≠ "account" := by
  refine ⟨rfl, by decide⟩

/-- C4 (amended): each entity's display name is computed deterministically
from that entity alone, the explicit alias taking precedence over the
computed casing transform of the raw name; uniqueness across entities is
not enforced. -/
theorem displayName_alias_rule (m : RawModel) :
    (∀ a, m.docNameAttr = some a → (transformBareModel m).typeName = a) ∧
    (m.docNameAttr = none → (transformBareModel m).typeName = pascalCase m.name) := by
  constructor
  · intro a ha
    simp [transformBareModel, ha]
  · intro h
    simp [transformBareModel, h]

/-- C4 witness: the alias rule applied at two concrete models. -/
theorem displayName_alias_rule_witness :
    (transformBareModel { name := "user", docNameAttr := some "Client" }).typeName =
      "Client" ∧
    (transformBareModel ({ name := "post" } : RawModel)).typeName = pascalCase "post" :=
  ⟨(displayName_alias_rule { name := "user", docNameAttr := some "Client" }).1 "Client" rfl,
   (displayName_alias_rule ({ name := "post" } : RawModel)).2 rfl⟩

/-- C5 counterexample: the output-type-name mapping is not idempotent.
With a single model whose raw name user carries the alias Account, mapping
Aggregateuser yields AggregateAccount, but mapping that result again yields
Aggregateundefined, because the alias does not resolve back to any model
even case-insensitively. -/
theorem mappedOutputTypeName_idempotent_cex :
    getMappedOutputTypeName stateUserAccount "Aggregateuser" =
      Except.ok "AggregateAccount" ∧
    getMappedOutputTypeName stateUserAccount "AggregateAccount" =
      Except.ok "Aggregateundefined" ∧
    ("AggregateAccount" : String) ≠ "Aggregateundefined" := by
  refine ⟨rfl, rfl, by decide⟩

/-- C5 (amended): within one run the memoized output-type-name mapping is
deterministic — whenever the memoization cache is consistent with the
uncached computation, a call returns exactly the uncached result for its
input (so the same input always yields the same output, regardless of call
count or order) and leaves the cache consistent.  Idempotence does not
hold in general (see the counterexample). -/
theorem mappedOutputTypeName_deterministic (st : DmmfState)
    (cache : List (String × String)) (q : String) (h : GoodCache st cache) :
    (cachedMappedOutputTypeName st cache q).1 = getMappedOutputTypeName st q ∧
    GoodCache st (cachedMappedOutputTypeName st cache q).2 := by
  cases hl : cache.lookup q with
  | some r =>
    have hm : (q, r) ∈ cache := lookup_mem_of_eq_some hl
    have hq := h _ hm
    simp only [cachedMappedOutputTypeName, hl]
    exact ⟨hq.symm, h⟩
  | none =>
    cases hg : getMappedOutputTypeName st q with
    | ok r =>
      simp only [cachedMappedOutputTypeName, hl, hg]
      refine ⟨trivial, ?_⟩
      intro p hp
      rcases List.mem_append.mp hp with h1 | h2
      · exact h _ h1
      · have hpq : p = (q, r) := by simpa using h2
        rw [hpq]
        exact hg
    | error e =>
      simp only [cachedMappedOutputTypeName, hl, hg]
      exact ⟨trivial, h⟩

/-- C5 witness: determinism applied at the aliased-model state with an
empty cache. -/
theorem mappedOutputTypeName_deterministic_witness :
    GoodCache stateUserAccount [] ∧
    (cachedMappedOutputTypeName stateUserAccount [] "Aggregateuser").1 =
      getMappedOutputTypeName stateUserAccount "Aggregateuser" := by
  have hgood : GoodCache stateUserAccount [] := by
    intro p hp
    cases hp
  exact ⟨hgood,
    (mappedOutputTypeName_deterministic stateUserAccount [] "Aggregateuser" hgood).1⟩

/-- C7: the orchestrator runs the block generators in exactly the fixed
order enumerations, entities, output types, input types, relation
resolvers, CRUD resolvers, each generate call returning before the next
category starts, for every metrics outcome and whether or not a callback
is supplied. -/
theorem blockGeneration_fixed_order (itemsOf : String → Nat) (hasCallback : Bool) :
    genEventsOf (generateAllBlocksTrace registeredBlocks itemsOf hasCallback) =
      [OrchestratorEvent.genStart "enums", OrchestratorEvent.genFinish "enums",
       OrchestratorEvent.genStart "models", OrchestratorEvent.genFinish "models",
       OrchestratorEvent.genStart "outputs", OrchestratorEvent.genFinish "outputs",
       OrchestratorEvent.genStart "inputs", OrchestratorEvent.genFinish "inputs",
       OrchestratorEvent.genStart "relationResolvers",
       OrchestratorEvent.genFinish "relationResolvers",
       OrchestratorEvent.genStart "crudResolvers",
       OrchestratorEvent.genFinish "crudResolvers"] := by
  rw [generateAllBlocksTrace, genEventsOf_generateBlocksLoop]
  rfl

/-- C8: when a formatting strategy is configured and the external formatter
invocation fails, the pipeline does not fail: the run still completes, the
persisted output tree is untouched, a warning is logged, and the final
metrics are still emitted. -/
theorem formatterFailure_nonfatal (kind : FormatKind) (e : String) (st : PipelineState) :
    (emitAndFormat (some kind) (Except.error e) st).generationDone = true ∧
    (emitAndFormat (some kind) (Except.error e) st).savedFiles = st.savedFiles ∧
    (emitAndFormat (some kind) (Except.error e) st).warnings =
      st.warnings ++ ["Warning: Code formatting failed: " ++ e] ∧
    (emitAndFormat (some kind) (Except.error e) st).metricPhases =
      st.metricPhases ++ ["code-emission", "total-generation"] :=
  ⟨rfl, rfl, rfl, rfl⟩

/-- C9: with a metrics observer supplied, the orchestrator fires the
observer callback for a block exactly when that block is in the emission
order and its generation reported a strictly positive itemsGenerated
count. -/
theorem metricsCallback_iff_positive_items (itemsOf : String → Nat) (b : String) :
    b ∈ callbackBlocksOf (generateAllBlocksTrace registeredBlocks itemsOf true) ↔
      b ∈ blockOrder ∧ 0 < itemsOf b := by
  rw [generateAllBlocksTrace, callbackBlocks_generateBlocksLoop]
  constructor
  · rintro ⟨h1, _, h3⟩
    exact ⟨h1, h3⟩
  · rintro ⟨h1, h3⟩
    refine ⟨h1, ?_, h3⟩
    fin_cases h1 <;> decide

/-- C6: an entity receives a relation model exactly when it has at least
one field that is relation-typed, not output-omitted, and present by name
in the entity's resolved output type. -/
theorem relationModel_iff_qualifying_field (models : List ModelE)
    (cache : List (String × OutputTypeE)) (m : ModelE) :
    m ∈ relationModelsOf models cache ↔
      m ∈ models ∧ ∃ f ∈ m.fields, f.relationName.isSome = true ∧
        f.isOmittedOutput = false ∧
        ∃ ot, cache.lookup m.name = some ot ∧ ∃ otf ∈ ot.fields, otf.name = f.name := by
  unfold relationModelsOf
  rw [List.mem_filter, List.mem_filter]
  constructor
  · rintro ⟨⟨hmem, _hany⟩, hpred⟩
    refine ⟨hmem, ?_⟩
    cases hlook : cache.lookup m.name with
    | none => rw [hlook] at hpred; cases hpred
    | some ot =>
      rw [hlook] at hpred
      obtain ⟨otf, hotf, hin⟩ := List.any_eq_true.mp hpred
      obtain ⟨mf, hmf, hmfp⟩ := List.any_eq_true.mp hin
      simp only [Bool.and_eq_true, beq_iff_eq, Bool.not_eq_true'] at hmfp
      exact ⟨mf, hmf, hmfp.1.2, hmfp.2, ot, rfl, otf, hotf, hmfp.1.1.symm⟩
  · rintro ⟨hmem, f, hf, hrel, homit, ot, hlook, otf, hotf, hname⟩
    refine ⟨⟨hmem, ?_⟩, ?_⟩
    · exact List.any_eq_true.mpr ⟨f, hf, by simp [hrel, homit]⟩
    · rw [hlook]
      exact List.any_eq_true.mpr
        ⟨otf, hotf, List.any_eq_true.mpr ⟨f, hf, by simp [hname, hrel, homit]⟩⟩

/-- When every declared key field name occurs in the model's field list,
the eager key-field resolution succeeds and returns fields bearing exactly
the declared names. -/
theorem resolveKeyFields_ok (model : ModelE) (kind : String) (ns : List String)
    (h : ∀ n ∈ ns, ∃ f ∈ model.fields, f.name = n) :
    ∃ fs, mapExcept (resolveKeyField model kind) ns = Except.ok fs ∧
      fs.map (fun f => f.name) = ns := by
  induction ns with
  | nil => exact ⟨[], rfl, rfl⟩
  | cons n rest ih =>
    obtain ⟨f0, hf0, hname⟩ := h n (List.mem_cons_self _ _)
    have hfind : (model.fields.find? (fun f => f.name == n)).isSome = true :=
      List.find?_isSome.mpr ⟨f0, hf0, by simp [hname]⟩
    obtain ⟨fx, hfx⟩ := Option.isSome_iff_exists.mp hfind
    obtain ⟨fs, hfs, hmap⟩ := ih (fun m hm => h m (List.mem_cons_of_mem _ hm))
    have hx : resolveKeyField model kind n = Except.ok fx := by
      unfold resolveKeyField
      rw [hfx]
    refine ⟨fx :: fs, ?_, ?_⟩
    · simp only [mapExcept, hx, hfs]
      rfl
    · have hfxn : fx.name = n := by simpa using List.find?_some hfx
      simp [hfxn, hmap]

/-- C2 (amended): the relation-resolver identity filter uses the first
field declared id, else the first field declared unique, as a single
field/value pair; otherwise it uses the primary-key fields (else the first
unique index's fields) as a composite filter whose key is named by the
primary key's declared name, else the first unique index's declared name,
else the underscore-joined field names; with no key at all it throws.  The
hypothesis is the schema well-formedness the source otherwise rejects with
its own missing-key-field throws. -/
theorem relationWhereFilter_amended (model : ModelE) (hwf : KeyFieldsResolvable model) :
    relationWhereCondition model =
      match model.fields.find? (fun f => f.isId) <|>
          model.fields.find? (fun f => f.isUnique) with
      | some f => Except.ok (WhereCondition.single f.name)
      | none =>
        if compositeFieldNamesSpec model = [] then
          Except.error
            ("Unexpected error happened on generating whereConditionString for " ++
              model.typeName ++ " relation resolver")
        else
          Except.ok (WhereCondition.composite (compositeKeyNameSpec model)
            (compositeFieldNamesSpec model)) := by
  obtain ⟨hpk, huq⟩ := hwf
  unfold relationWhereCondition compositeKeyNameSpec compositeFieldNamesSpec
  cases hpkv : model.primaryKey with
  | none =>
    cases huqv : model.uniqueIndexes.head? with
    | none => rfl
    | some u =>
      simp only [huqv] at huq
      obtain ⟨fs, hfs, hmap⟩ := resolveKeyFields_ok model "Unique" u.fields huq
      dsimp only
      rw [hfs]
      simp only [Option.map_some', Option.map_none', Option.getD_some, Option.getD_none,
        Option.some_bind, Option.none_bind]
      cases hid : model.fields.find? (fun f => f.isId) with
      | some f => rfl
      | none =>
        cases hun : model.fields.find? (fun f => f.isUnique) with
        | some f => rfl
        | none =>
          cases hfv : u.fields with
          | nil =>
            have hfs0 : fs = [] := by
              have hm := hmap
              rw [hfv] at hm
              simpa using hm
            rw [hfs0]
            rfl
          | cons a rest =>
            cases fs with
            | nil =>
              rw [hfv] at hmap
              cases hmap
            | cons g gs =>
              rw [hfv] at hmap
              simp [hmap, exceptBind_ok, exceptPure]
  | some pk =>
    simp only [hpkv] at hpk
    obtain ⟨fsp, hfsp, hmapp⟩ := resolveKeyFields_ok model "Primary key" pk.fields hpk
    cases huqv : model.uniqueIndexes.head? with
    | none =>
      dsimp only
      rw [hfsp]
      simp only [Option.map_some', Option.map_none', Option.getD_some, Option.getD_none,
        Option.some_bind, Option.none_bind]
      cases hid : model.fields.find? (fun f => f.isId) with
      | some f => rfl
      | none =>
        cases hun : model.fields.find? (fun f => f.isUnique) with
        | some f => rfl
        | none =>
          cases hpfv : pk.fields with
          | nil =>
            have hfsp0 : fsp = [] := by
              have hm := hmapp
              rw [hpfv] at hm
              simpa using hm
            rw [hfsp0]
            rfl
          | cons a rest =>
            cases fsp with
            | nil =>
              rw [hpfv] at hmapp
              cases hmapp
            | cons g gs =>
              rw [hpfv] at hmapp
              simp [hmapp, exceptBind_ok, exceptPure]
    | some u =>
      simp only [huqv] at huq
      obtain ⟨fsu, hfsu, hmapu⟩ := resolveKeyFields_ok model "Unique" u.fields huq
      dsimp only
      rw [hfsp, hfsu]
      simp only [Option.map_some', Option.map_none', Option.getD_some, Option.getD_none,
        Option.some_bind, Option.none_bind]
      cases hid : model.fields.find? (fun f => f.isId) with
      | some f => rfl
      | none =>
        cases hun : model.fields.find? (fun f => f.isUnique) with
        | some f => rfl
        | none =>
          cases hpfv : pk.fields with
          | nil =>
            have hfsp0 : fsp = [] := by
              have hm := hmapp
              rw [hpfv] at hm
              simpa using hm
            rw [hfsp0]
            cases hfv : u.fields with
            | nil =>
              have hfsu0 : fsu = [] := by
                have hm := hmapu
                rw [hfv] at hm
                simpa using hm
              rw [hfsu0]
              rfl
            | cons a rest =>
              cases fsu with
              | nil =>
                rw [hfv] at hmapu
                cases hmapu
              | cons g gs =>
                rw [hfv] at hmapu
                simp [hmapu, exceptBind_ok, exceptPure]
          | cons a rest =>
            cases fsp with
            | nil =>
              rw [hpfv] at hmapp
              cases hmapp
            | cons g gs =>
              rw [hpfv] at hmapp
              simp [hmapp, exceptBind_ok, exceptPure]

/-- C2 witness: the amended filter rule applied at the concrete model with
an unnamed composite primary key and a named unique index. -/
theorem relationWhereFilter_amended_witness :
    KeyFieldsResolvable modelPkUnnamedUniqNamed ∧
    relationWhereCondition modelPkUnnamedUniqNamed =
      Except.ok (WhereCondition.composite (compositeKeyNameSpec modelPkUnnamedUniqNamed)
        (compositeFieldNamesSpec modelPkUnnamedUniqNamed)) := by
  have hwf : KeyFieldsResolvable modelPkUnnamedUniqNamed := by
    constructor
    · intro n hn
      fin_cases hn
      · exact ⟨mkScalarField "a", by simp [modelPkUnnamedUniqNamed], rfl⟩
      · exact ⟨mkScalarField "b", by simp [modelPkUnnamedUniqNamed], rfl⟩
    · intro n hn
      fin_cases hn
      exact ⟨mkScalarField "c", by simp [modelPkUnnamedUniqNamed], rfl⟩
  refine ⟨hwf, ?_⟩
  rw [relationWhereFilter_amended modelPkUnnamedUniqNamed hwf]
  rfl

/-- C2 counterexample: on the model whose composite primary key over a and
b is unnamed while its first unique index over c is named u, the generated
filter nests the primary-key fields under the unique index's name u rather
than under a_b, the underscore-joined name the claim mandates for an
unnamed composite key. -/
theorem relationWhereFilter_cex :
    relationWhereCondition modelPkUnnamedUniqNamed =
      Except.ok (WhereCondition.composite "u" ["a", "b"]) ∧
    modelPkUnnamedUniqNamed.primaryKey =
      some { name := none, fields := ["a", "b"] } ∧
    ("u" : String) ≠ "a_b" := by
  refine ⟨rfl, rfl, by decide⟩

/-- A successful per-field output transformation preserves the raw field's
deprecation marker. -/
theorem transformOutputField_deprecation {opts : GeneratorOptionsE} {st : DmmfState}
    {typeName : String} {field : OutputFieldRaw} {res : OutputSchemaFieldE}
    (h : transformOutputField opts st typeName field = Except.ok res) :
    res.deprecation = field.deprecation := by
  unfold transformOutputField at h
  cases hm : getMappedOutputTypeName st field.outputType.type with
  | error e => rw [hm] at h; cases h
  | ok mapped =>
    rw [hm] at h
    simp only [Except.bind, pure, Except.pure] at h
    cases h
    rfl

/-- C10: deprecated fields are excluded from transformed input and output
types — every field of a transformed input type, and every field of a
successfully transformed output type, carries no deprecation marker. -/
theorem deprecatedFields_excluded (opts : GeneratorOptionsE)
    (getModelNameFromInputType : String → Option String)
    (getInputTypeName : String → String)
    (modelsCache : List (String × ModelE)) (inputType : InputTypeRaw)
    (st : DmmfState) (outputType : OutputTypeRaw) (outE : OutputTypeE)
    (hout : transformOutputType opts st outputType = Except.ok outE) :
    ((transformInputType opts getModelNameFromInputType getInputTypeName
        modelsCache inputType).fields.all fun f => f.deprecation.isNone) = true ∧
    (outE.fields.all fun f => f.deprecation.isNone) = true := by
  constructor
  · rw [List.all_eq_true]
    intro f hf
    unfold transformInputType at hf
    simp only [List.mem_map] at hf
    obtain ⟨x, hx, rfl⟩ := hf
    exact (List.mem_filter.mp hx).2
  · rw [List.all_eq_true]
    intro f hf
    unfold transformOutputType at hout
    cases htn : getMappedOutputTypeName st outputType.name with
    | error e => rw [htn] at hout; cases hout
    | ok typeName =>
      rw [htn] at hout
      replace hout :
          (mapExcept (transformOutputField opts st typeName)
            (outputType.fields.filter fun field => field.deprecation.isNone) >>=
              fun fields =>
                pure { name := outputType.name, typeName := typeName,
                       fields := fields }) = Except.ok outE := hout
      cases hfs : mapExcept (transformOutputField opts st typeName)
          (outputType.fields.filter fun field => field.deprecation.isNone) with
      | error e => rw [hfs] at hout; cases hout
      | ok fields =>
        rw [hfs] at hout
        cases hout
        obtain ⟨x, hx, hgx⟩ := mapExcept_ok_mem hfs f hf
        have hdep := transformOutputField_deprecation hgx
        have hxn : x.deprecation = none :=
          Option.isNone_iff_eq_none.mp (List.mem_filter.mp hx).2
        simp [hdep, hxn]

/-- C1 counterexample: with simplified inputs enabled and a candidate list
whose only member is a compound-operation input object, the selection
falls through every filtering stage to the final any-remaining fallback
and picks the denylisted compound candidate, contradicting the claim that
such a candidate is never selected. -/
theorem selectInputType_simpleInputs_cex :
    selectInputTypeFromTypes optsSimple onlyCompoundCandidates =
      some { location := TypeLocation.inputObjectTypes
             type := "IntFieldUpdateOperationsInput"
             isList := false } ∧
    denylistCompound "IntFieldUpdateOperationsInput" = true := by
  refine ⟨rfl, by decide⟩

/-- C1 (amended): with simplified inputs enabled, a denylisted
compound-operation input-object candidate is never selected as long as any
candidate survives one of the three filtering stages (a non-denylisted
input object, a non-Null scalar, or an enumeration candidate); only the
final any-remaining fallback can return one.  With the flag disabled, the
selection equals the specification's stated precedence (with the non-Null
scalar refinement). -/
theorem selectInputType_amended (opts : GeneratorOptionsE)
    (inputTypes : List InputTypeRef) :
    (opts.useSimpleInputs = true →
      ((∃ r ∈ inputTypes, r.location = TypeLocation.inputObjectTypes ∧
          denylistCompound r.type = false) ∨
        (∃ r ∈ inputTypes, r.location = TypeLocation.scalar ∧ r.type ≠ "Null") ∨
        (∃ r ∈ inputTypes, r.location = TypeLocation.enumTypes)) →
      ∀ sel, selectInputTypeFromTypes opts inputTypes = some sel →
        ¬(sel.location = TypeLocation.inputObjectTypes ∧
          denylistCompound sel.type = true)) ∧
    (opts.useSimpleInputs = false →
      selectInputTypeFromTypes opts inputTypes =
        selectInputTypeSpec opts.useUncheckedScalarInputs inputTypes) := by
  constructor
  · intro hsimple hex sel hsel
    rintro ⟨hloc, hdeny⟩
    have hmem : sel ∈ selectSurvivors opts inputTypes := by
      unfold selectInputTypeFromTypes at hsel
      exact selectPick_mem hsel
    unfold selectSurvivors at hmem
    simp only [hsimple, Bool.not_true, Bool.false_or] at hmem
    cases h1 : (inputTypes.filter fun it =>
        it.location == TypeLocation.inputObjectTypes &&
          !denylistCompound it.type).isEmpty with
    | false =>
      simp only [h1, Bool.false_eq_true, if_false] at hmem
      have hpred := (List.mem_filter.mp hmem).2
      simp only [Bool.and_eq_true, beq_iff_eq, Bool.not_eq_true'] at hpred
      rw [hpred.2] at hdeny
      cases hdeny
    | true =>
      simp only [h1, if_true] at hmem
      cases h2 : (inputTypes.filter fun it =>
          it.location == TypeLocation.scalar && it.type != "Null").isEmpty with
      | false =>
        simp only [h2, Bool.false_eq_true, if_false] at hmem
        have hpred := (List.mem_filter.mp hmem).2
        simp only [Bool.and_eq_true, beq_iff_eq] at hpred
        rw [hloc] at hpred
        cases hpred.1
      | true =>
        simp only [h2, if_true] at hmem
        cases h3 : (inputTypes.filter fun it =>
            it.location == TypeLocation.enumTypes).isEmpty with
        | false =>
          simp only [h3, Bool.false_eq_true, if_false] at hmem
          have hpred := (List.mem_filter.mp hmem).2
          simp only [beq_iff_eq] at hpred
          rw [hloc] at hpred
          cases hpred
        | true =>
          rcases hex with ⟨r, hr, hrl, hrd⟩ | ⟨r, hr, hrl, hrn⟩ | ⟨r, hr, hrl⟩
          · have hrmem : r ∈ inputTypes.filter (fun it =>
                it.location == TypeLocation.inputObjectTypes &&
                  !denylistCompound it.type) :=
              List.mem_filter.mpr ⟨hr, by simp [hrl, hrd]⟩
            rw [List.isEmpty_iff.mp h1] at hrmem
            cases hrmem
          · have hrmem : r ∈ inputTypes.filter (fun it =>
                it.location == TypeLocation.scalar && it.type != "Null") :=
              List.mem_filter.mpr ⟨hr, by simp [hrl, hrn]⟩
            rw [List.isEmpty_iff.mp h2] at hrmem
            cases hrmem
          · have hrmem : r ∈ inputTypes.filter (fun it =>
                it.location == TypeLocation.enumTypes) :=
              List.mem_filter.mpr ⟨hr, by simp [hrl]⟩
            rw [List.isEmpty_iff.mp h3] at hrmem
            cases hrmem
  · intro hoff
    unfold selectInputTypeFromTypes selectInputTypeSpec
    rw [selectPick_eq_spec]
    congr 1
    unfold selectSurvivors selectStagesSpec
    simp only [hoff, Bool.not_false, Bool.true_or, Bool.and_true]
    cases h1 : (inputTypes.filter fun it =>
        it.location == TypeLocation.inputObjectTypes).isEmpty with
    | false => simp [h1]
    | true =>
      cases h2 : (inputTypes.filter fun it =>
          it.location == TypeLocation.scalar && it.type != "Null").isEmpty with
      | false => simp [h1, h2]
      | true =>
        cases h3 : (inputTypes.filter fun it =>
            it.location == TypeLocation.enumTypes).isEmpty with
        | false => simp [h1, h2, h3]
        | true => simp [h1, h2, h3]

/-- C1 witness: the simple-mode guarantee applied at the mixed candidate
list (where the plain scalar survives and is selected), and the flag-off
precedence equation applied at the same list. -/
theorem selectInputType_amended_witness :
    ¬(scalarIntRef.location = TypeLocation.inputObjectTypes ∧
        denylistCompound scalarIntRef.type = true) ∧
    selectInputTypeFromTypes optsDefault mixedCandidates =
      selectInputTypeSpec false mixedCandidates := by
  constructor
  · exact (selectInputType_amended optsSimple mixedCandidates).1 rfl
      (Or.inr (Or.inl ⟨scalarIntRef, by simp [mixedCandidates], rfl, by decide⟩))
      scalarIntRef rfl
  · exact (selectInputType_amended optsDefault mixedCandidates).2 rfl

/-- C10 witness: the exclusion applied to a concrete input type and a
concrete output type, each with one deprecated and one live field. -/
theorem deprecatedFields_excluded_witness :
    transformOutputType optsDefault stateEmpty outputTypeWitness =
      Except.ok outputTypeWitnessResult ∧
    ((transformInputType optsDefault (fun _ => none) (fun n => n)
        [] inputTypeWitness).fields.all fun f => f.deprecation.isNone) = true ∧
    (outputTypeWitnessResult.fields.all fun f => f.deprecation.isNone) = true := by
  have h : transformOutputType optsDefault stateEmpty outputTypeWitness =
      Except.ok outputTypeWitnessResult := rfl
  refine ⟨h, ?_, ?_⟩
  · exact (deprecatedFields_excluded optsDefault (fun _ => none) (fun n => n)
      [] inputTypeWitness stateEmpty outputTypeWitness outputTypeWitnessResult h).1
  · exact (deprecatedFields_excluded optsDefault (fun _ => none) (fun n => n)
      [] inputTypeWitness stateEmpty outputTypeWitness outputTypeWitnessResult h).2

end TGP
